import Mathlib

/-!
Shallow embedding of the CmdLine command-line parsing engine
(src/src/CmdLine.cpp, src/include/Support/CmdLine.h,
src/include/Support/StringRef.h, src/include/Support/StringSplit.h).

Strings are modelled as `List Char`.  The mutable option objects of the
C++ code are modelled as a heap `Nat → OptState` indexed by option id
(the order of registration), threaded explicitly through the parsing
functions.  The exception-based control flow of CmdLine.cpp is modelled
with `Except`.
-/

deriving instance DecidableEq for Except

namespace CmdLineModel

/-- Enumeration NumOccurrences from Support/CmdLine.h. -/
inductive NumOccurrences where
  | Optional
  | ZeroOrMore
  | Required
  | OneOrMore
deriving DecidableEq

/-- Enumeration NumArgs from Support/CmdLine.h. -/
inductive NumArgs where
  | ArgOptional
  | ArgRequired
  | ArgDisallowed
deriving DecidableEq

/-- Enumeration Formatting from Support/CmdLine.h. -/
inductive Formatting where
  | DefaultFormatting
  | Prefix
  | MayPrefix
  | Grouping
  | Positional
deriving DecidableEq

/-- Enumeration OptionGroup::Type from Support/CmdLine.h. -/
inductive GroupType where
  | Default
  | Zero
  | ZeroOrOne
  | One
  | OneOrMore
  | All
  | ZeroOrAll
deriving DecidableEq

/-- Runtime and registration errors: each constructor corresponds to one
of the std::runtime_error throw sites of CmdLine.cpp.  The constructor
`outOfRange` models a violation of the assertion `Index < size()` in
StringRef::operator[] (an out-of-range character access). -/
inductive Err where
  | outOfRange
  | unknownOption (arg : List Char)
  | unhandledPositional
  | missingArgument (dname : List Char)
  | missingArgumentInGroup (dname cluster : List Char)
  | unexpectedArgument (dname : List Char)
  | alreadySpecified (dname : List Char)
  | invalidArgument (name piece : List Char)
  | groupViolated (gname : List Char)
  | missingRequired (dname : List Char)
  | ioError (path : List Char)
  | tooManyResponseFiles
  | duplicateAlias (a : List Char)
  | duplicateGroup (gname : List Char)
  | emptyPositionalName
  | noAllowedValues
deriving DecidableEq

/-- Static description of one declared option: the fields of OptionBase
from Support/CmdLine.h (name_, argName_, numOccurrences_, numArgs_,
formatting_, miscFlags_), the enumerated allowed values used as aliases
for nameless options, and the opaque per-option value parser
(the virtual OptionBase::parse, an external collaborator: it returns
success or failure for a given (name, piece) pair).  The mutable field
count_ and the typed storage live in `OptState`. -/
structure OptSpec where
  name : List Char := []
  argName : List Char := [ 'a', 'r', 'g']
  numOccurrences : NumOccurrences := .Optional
  numArgs : NumArgs := .ArgOptional
  formatting : Formatting := .DefaultFormatting
  commaSeparated : Bool := false
  consumeAfter : Bool := false
  allowedValues : List (List Char) := []
  accepts : List Char → List Char → Bool := fun _ _ => true

/-- One option group: OptionGroup from Support/CmdLine.h, with members
given by option id. -/
structure GroupSpec where
  gname : List Char
  gtype : GroupType
  members : List Nat

/-- The option registry built by CmdLine::add: the list of declared
options (id = position), the alias map options_, the ordered positional
list positionals_, the groups map groups_, and maxPrefixLength_. -/
structure Registry where
  opts : List OptSpec := []
  amap : List (List Char × Nat) := []
  positionals : List Nat := []
  groups : List GroupSpec := []
  maxPrefixLength : Nat := 0

/-- Mutable per-option state: the occurrence counter count_ and the
container storage (the raw text of each successfully parsed piece, in
insertion order). -/
structure OptState where
  count : Nat := 0
  store : List (List Char) := []
deriving DecidableEq

/-- The state of one parse session: the per-option heap, the argument
vector args_, the cursor index_, the dashdash flag of CmdLine::parse,
and the positional cursor currentPositional_ (an index into
Registry.positionals). -/
structure PState where
  states : Nat → OptState
  args : List (List Char)
  index : Nat := 0
  dashdash : Bool := false
  curPos : Nat := 0

/-- Array access StringRef::operator[]: returns the character, or the
assertion violation `outOfRange` when the index is not smaller than the
size. -/
def charAt (s : List Char) (i : Nat) : Except Err Char :=
  match s.get? i with
  | some c => .ok c
  | none => .error .outOfRange

/-- StringRef::find(char, 0): index of the first occurrence of a
character, none when absent. -/
def findCh (c : Char) : List Char → Option Nat
  | [] => none
  | x :: xs => if x = c then some 0 else (findCh c xs).map (· + 1)

/-- strings::split with a single-character LiteralDelimiter and the
KeepEmpty predicate (Support/StringSplit.h): splits at every occurrence
of the delimiter, keeping empty pieces; the empty string yields one
empty piece. -/
def splitOnChar (c : Char) : List Char → List (List Char)
  | [] => [[]]
  | x :: xs =>
    if x = c then [] :: splitOnChar c xs
    else
      match splitOnChar c xs with
      | [] => [[x]]
      | t :: ts => (x :: t) :: ts

/-- StringRef::less: lexicographic comparison by unsigned character
value, shorter prefix first. -/
def strLt : List Char → List Char → Bool
  | [], [] => false
  | [], _ :: _ => true
  | _ :: _, [] => false
  | a :: as, b :: bs =>
    if a.toNat < b.toNat then true
    else if b.toNat < a.toNat then false
    else strLt as bs

/-- OptionBase::displayName: the primary name, or the argument label for
anonymous options. -/
def displayName (o : OptSpec) : List Char :=
  if o.name = [] then o.argName else o.name

/-- OptionBase::isOccurrenceAllowed: Optional and Required options allow
an occurrence only while count is 0; ZeroOrMore and OneOrMore always. -/
def isOccurrenceAllowed (o : OptSpec) (count : Nat) : Bool :=
  match o.numOccurrences with
  | .Optional => count = 0
  | .Required => count = 0
  | _ => true

/-- OptionBase::isOccurrenceRequired: Required and OneOrMore options are
missing while count is 0. -/
def isOccurrenceRequired (o : OptSpec) (count : Nat) : Bool :=
  match o.numOccurrences with
  | .Required => count = 0
  | .OneOrMore => count = 0
  | _ => false

/-- OptionBase::isPrefix: true for the Prefix and MayPrefix formatting
modes. -/
def isPrefix (o : OptSpec) : Bool :=
  match o.formatting with
  | .Prefix => true
  | .MayPrefix => true
  | _ => false

/-- Exact lookup in the alias map (CmdLine::findOption). -/
def lookupA (a : List Char) : List (List Char × Nat) → Option Nat
  | [] => none
  | kv :: rest => if kv.1 = a then some kv.2 else lookupA a rest

/-- CmdLine::findOption: resolve an alias to the owning option id. -/
def findOption (R : Registry) (a : List Char) : Option Nat :=
  lookupA a R.amap

/-- The option spec registered under an id (out-of-range ids map to a
default spec; they are never produced by the registry). -/
def optSpec (R : Registry) (id : Nat) : OptSpec :=
  R.opts.getD id {}

/-- The insert lambda of CmdLine::add: record the alias length in
maxPrefixLength_ for Prefix and MayPrefix options, then insert the alias
into the map, failing on a duplicate. -/
def insertAlias (id : Nat) (sp : OptSpec) (R : Registry) (a : List Char) : Except Err Registry :=
  let R1 :=
    if isPrefix sp ∧ R.maxPrefixLength < a.length then
      { R with maxPrefixLength := a.length }
    else R
  match lookupA a R1.amap with
  | some _ => .error (.duplicateAlias a)
  | none => .ok { R1 with amap := R1.amap ++ [(a, id)] }

/-- Alias insertion loop of CmdLine::add over the split alias list. -/
def insertAliases (id : Nat) (sp : OptSpec) : List (List Char) → Registry → Except Err Registry
  | [], R => .ok R
  | a :: rest, R =>
    match insertAlias id sp R a with
    | .ok R1 => insertAliases id sp rest R1
    | .error e => .error e

/-- CmdLine::add(OptionBase&): positional options need a name and go on
the positional list; otherwise the name is split on the pipe character
(or the enumerated allowed values stand in for an empty name) and every
alias is inserted. -/
def addOpt (R : Registry) (sp : OptSpec) : Except Err Registry :=
  let id := R.opts.length
  let R0 : Registry := { R with opts := R.opts ++ [sp] }
  if sp.formatting = .Positional then
    if sp.name = [] then .error .emptyPositionalName
    else .ok { R0 with positionals := R0.positionals ++ [id] }
  else
    if sp.name = [] then
      if sp.allowedValues = [] then .error .noAllowedValues
      else insertAliases id sp sp.allowedValues R0
    else insertAliases id sp (splitOnChar '|' sp.name) R0

/-- CmdLine::add(OptionGroup&): insert a group by name, failing on a
duplicate. -/
def addGroup (R : Registry) (g : GroupSpec) : Except Err Registry :=
  if R.groups.any (fun h => decide (h.gname = g.gname)) then
    .error (.duplicateGroup g.gname)
  else .ok { R with groups := R.groups ++ [g] }

/-- Build a registry by registering a list of options in order. -/
def mkRegistry : List OptSpec → Except Err Registry
  | specs => go specs {}
where
  go : List OptSpec → Registry → Except Err Registry
    | [], R => .ok R
    | sp :: rest, R =>
      match addOpt R sp with
      | .ok R1 => go rest R1
      | .error e => .error e

/-- Extract the registry from a successful registration. -/
def regOrEmpty : Except Err Registry → Registry
  | .ok R => R
  | .error _ => {}

/-- Fresh parse session state: all counters zero, empty storage. -/
def initState (args : List (List Char)) : PState :=
  { states := fun _ => {}, args := args }

/-- Read the state of one option. -/
def getOS (st : PState) (id : Nat) : OptState :=
  st.states id

/-- Write the state of one option. -/
def setOS (st : PState) (id : Nat) (os : OptState) : PState :=
  { st with states := fun j => if j = id then os else st.states j }

/-- The add lambda of CmdLine::parse(OptionBase*, StringRef, StringRef),
run over the list of pieces: each piece is handed to the opaque value
parser (`opt->parse(name, arg)`); on success it is stored and count_ is
incremented; on failure the error InvalidArgument escapes, with the
mutations of the earlier pieces retained (the first component is the
option state at the moment the error is raised). -/
def addPiecesRun (sp : OptSpec) (name : List Char) :
    List (List Char) → OptState → OptState × Option Err
  | [], os => (os, none)
  | p :: ps, os =>
    if sp.accepts name p then
      addPiecesRun sp name ps { count := os.count + 1, store := os.store ++ [p] }
    else (os, some (.invalidArgument name p))

/-- CmdLine::parse(OptionBase*, StringRef, StringRef): check
isOccurrenceAllowed once, then split the value on commas when the
CommaSeparated flag is set (otherwise use the single value) and add the
pieces in order. -/
def parsePieces (sp : OptSpec) (name arg : List Char) (os : OptState) : OptState × Option Err :=
  if isOccurrenceAllowed sp os.count then
    addPiecesRun sp name (if sp.commaSeparated then splitOnChar ',' arg else [arg]) os
  else (os, some (.alreadySpecified (displayName sp)))

/-- CmdLine::parse(OptionBase*, StringRef, StringRef) lifted to the
session state: on success the option heap is updated; a raised error
aborts the session. -/
def cmdParse (R : Registry) (id : Nat) (name arg : List Char) (st : PState) : Except Err PState :=
  match parsePieces (optSpec R id) name arg (getOS st id) with
  | (os, none) => .ok (setOS st id os)
  | (_, some e) => .error e

/-- CmdLine::addOccurrence(OptionBase*, StringRef): no inline value was
supplied.  A non-positional option that requires an argument steals the
next token from the command line and advances the cursor past it,
failing with MissingArgument when it is a strict Prefix option or no
further token remains; otherwise the value stays empty. -/
def addOccurrenceNoArg (R : Registry) (id : Nat) (name : List Char) (st : PState) : Except Err PState :=
  if (optSpec R id).formatting ≠ .Positional ∧ (optSpec R id).numArgs = .ArgRequired then
    if (optSpec R id).formatting = .Prefix ∨ st.args.length ≤ st.index + 1 then
      .error (.missingArgument (displayName (optSpec R id)))
    else
      cmdParse R id name (st.args.getD (st.index + 1) []) { st with index := st.index + 1 }
  else
    cmdParse R id name [] st

/-- CmdLine::addOccurrence(OptionBase*, StringRef, StringRef): an inline
value was supplied; a non-positional option that disallows an argument
fails with UnexpectedArgument. -/
def addOccurrenceArg (R : Registry) (id : Nat) (name arg : List Char) (st : PState) : Except Err PState :=
  if (optSpec R id).formatting ≠ .Positional ∧ (optSpec R id).numArgs = .ArgDisallowed then
    .error (.unexpectedArgument (displayName (optSpec R id)))
  else
    cmdParse R id name arg st

/-- CmdLine::handleOption: exact alias match first; otherwise split the
token at the first equals sign, look the name part up, and deliver the
rest as the inline value, keeping the equals sign in the value exactly
when the option is a prefix option (isPrefix, i.e. Prefix or MayPrefix).
Returns none when the token is not handled here. -/
def handleOption (R : Registry) (curr : List Char) (st : PState) : Except Err (Option PState) :=
  match findOption R curr with
  | some id => (addOccurrenceNoArg R id curr st).map some
  | none =>
    match findCh '=' curr with
    | none => .ok none
    | some i =>
      match findOption R (curr.take i) with
      | some id =>
        (addOccurrenceArg R id (curr.take i)
          (curr.drop (if isPrefix (optSpec R id) then i else i + 1)) st).map some
      | none => .ok none

/-- The descending loop of CmdLine::handlePrefix: try the leading
substring of each length from the bound down to 1; the first registered
alias whose option is a prefix option wins, with the tail of the token
as its inline value. -/
def handlePrefixFrom (R : Registry) (curr : List Char) (st : PState) : Nat → Except Err (Option PState)
  | 0 => .ok none
  | n + 1 =>
    match findOption R (curr.take (n + 1)) with
    | some id =>
      if isPrefix (optSpec R id) then
        (addOccurrenceArg R id (curr.take (n + 1)) (curr.drop (n + 1)) st).map some
      else handlePrefixFrom R curr st n
    | none => handlePrefixFrom R curr st n

/-- CmdLine::handlePrefix: start the descending loop at
min(maxPrefixLength_, token length). -/
def handlePrefix (R : Registry) (curr : List Char) (st : PState) : Except Err (Option PState) :=
  handlePrefixFrom R curr st (min R.maxPrefixLength curr.length)

/-- The first loop of CmdLine::handleGroup: every single character of
the token must resolve to an option with Grouping formatting; collects
the (character, option id) pairs in order, none otherwise. -/
def collectGroup (R : Registry) : List Char → Option (List (Char × Nat))
  | [] => some []
  | c :: cs =>
    match findOption R [c] with
    | some id =>
      if (optSpec R id).formatting = .Grouping then
        (collectGroup R cs).map (fun g => (c, id) :: g)
      else none
    | none => none

/-- The second loop of CmdLine::handleGroup: the first option among the
given ones (all but the last of the group) whose numArgs_ is
ArgRequired, if any. -/
def firstRequiredViolation (R : Registry) : List (Char × Nat) → Option Nat
  | [] => none
  | p :: rest =>
    if (optSpec R p.2).numArgs = .ArgRequired then some p.2
    else firstRequiredViolation R rest

/-- The third loop of CmdLine::handleGroup: add one occurrence per
matched option, left to right, each named by its single character. -/
def groupLoop (R : Registry) : List (Char × Nat) → PState → Except Err PState
  | [], st => .ok st
  | p :: rest, st =>
    match addOccurrenceNoArg R p.2 [p.1] st with
    | .ok st1 => groupLoop R rest st1
    | .error e => .error e

/-- CmdLine::handleGroup: if the token is a cluster of Grouping options,
fail when any option but the last requires an argument (naming the
option and the cluster), else add one occurrence per option. -/
def handleGroup (R : Registry) (curr : List Char) (st : PState) : Except Err (Option PState) :=
  match collectGroup R curr with
  | none => .ok none
  | some g =>
    match firstRequiredViolation R g.dropLast with
    | some id => .error (.missingArgumentInGroup (displayName (optSpec R id)) curr)
    | none => (groupLoop R g st).map some

/-- CmdLine::handlePositional: advance the positional cursor past
options that allow no further occurrence; fail when the positional list
is exhausted; otherwise the token itself is the value of the current
positional option. -/
def positionalFrom (R : Registry) (curr : List Char) (st : PState) : List Nat → Nat → Except Err PState
  | [], _ => .error .unhandledPositional
  | id :: rest, pos =>
    if isOccurrenceAllowed (optSpec R id) (getOS st id).count then
      addOccurrenceArg R id curr curr { st with curPos := pos }
    else positionalFrom R curr st rest (pos + 1)

/-- CmdLine::handlePositional, starting at the current positional
cursor. -/
def handlePositional (R : Registry) (curr : List Char) (st : PState) : Except Err PState :=
  positionalFrom R curr st (R.positionals.drop st.curPos) st.curPos

/-- The dash-token half of CmdLine::handleArg: exact/equals match,
prefix match, and, for short-form tokens only, grouping are tried in
order on the stripped token; an unmatched token is an unknown option. -/
def dispatchnamed (R : Registry) (arg : List Char) (c1 : Char) (nm2 : List Char) (st : PState) :
    Except Err PState :=
  match handleOption R nm2 st with
  | .error e => .error e
  | .ok (some st1) => .ok st1
  | .ok none =>
    match handlePrefix R nm2 st with
    | .error e => .error e
    | .ok (some st1) => .ok st1
    | .ok none =>
      if c1 ≠ '-' then
        match handleGroup R nm2 st with
        | .error e => .error e
        | .ok (some st1) => .ok st1
        | .ok none => .error (.unknownOption arg)
      else .error (.unknownOption arg)

/-- CmdLine::handleArg: the first bare double-dash only sets the
dashdash flag; then the first character of the token is read (an
out-of-range access on the empty token); a token is positional when
that character is no dash, the token is a bare dash, or dashdash was
seen (positional handling may set dashdash via the ConsumeAfter flag);
otherwise one dash is stripped (two for long form) and the stripped
token is dispatched via `dispatchnamed`. -/
def handleArg (R : Registry) (st : PState) : Except Err PState :=
  if st.args.getD st.index [] = [ '-', '-'] ∧ ¬ st.dashdash then .ok { st with dashdash := true }
  else
    match charAt (st.args.getD st.index []) 0 with
    | .error e => .error e
    | .ok c0 =>
      if c0 ≠ '-' ∨ st.args.getD st.index [] = [ '-'] ∨ st.dashdash then
        match handlePositional R (st.args.getD st.index []) st with
        | .error e => .error e
        | .ok st1 =>
          if (optSpec R (R.positionals.getD st1.curPos 0)).consumeAfter then
            .ok { st1 with dashdash := true }
          else .ok st1
      else
        match charAt ((st.args.getD st.index []).drop 1) 0 with
        | .error e => .error e
        | .ok c1 =>
          dispatchnamed R (st.args.getD st.index []) c1
            (if c1 = '-' then ((st.args.getD st.index []).drop 1).drop 1
             else (st.args.getD st.index []).drop 1) st

/-- The argument loop of CmdLine::parse(): handle the token under the
cursor and advance, until the argument vector is exhausted.  The fuel
bounds the number of iterations; `runArgs` supplies enough fuel, since
every iteration advances the cursor by at least one. -/
def runLoop (R : Registry) : Nat → PState → Except Err PState
  | 0, st => .ok st
  | fuel + 1, st =>
    if st.index < st.args.length then
      match handleArg R st with
      | .error e => .error e
      | .ok st1 => runLoop R fuel { st1 with index := st1.index + 1 }
    else .ok st

/-- The token-consuming phase of CmdLine::parse(). -/
def runArgs (R : Registry) (args : List (List Char)) : Except Err PState :=
  runLoop R (args.length + 1) (initState args)

/-- CmdLine::check(OptionBase const*): fail with MissingRequiredOption
when the occurrence is still required. -/
def checkOpt (sp : OptSpec) (os : OptState) : Except Err Unit :=
  if isOccurrenceRequired sp os.count then .error (.missingRequired (displayName sp))
  else .ok ()

/-- Required-occurrence check over a list of option ids, first error
wins. -/
def checkList (R : Registry) (st : PState) : List Nat → Except Err Unit
  | [] => .ok ()
  | id :: rest =>
    match checkOpt (optSpec R id) (getOS st id) with
    | .ok _ => checkList R st rest
    | .error e => .error e

/-- The count_if of OptionGroup::check: the number of member options
specified at least once. -/
def countActive (st : PState) : List Nat → Nat
  | [] => 0
  | id :: rest => (if 0 < (getOS st id).count then 1 else 0) + countActive st rest

/-- OptionGroup::check: compare the number of specified members against
the group constraint. -/
def checkGroup (st : PState) (g : GroupSpec) : Except Err Unit :=
  let n := countActive st g.members
  match g.gtype with
  | .Default => .ok ()
  | .Zero => if n ≠ 0 then .error (.groupViolated g.gname) else .ok ()
  | .ZeroOrOne => if n ≠ 0 ∧ n ≠ 1 then .error (.groupViolated g.gname) else .ok ()
  | .One => if n ≠ 1 then .error (.groupViolated g.gname) else .ok ()
  | .OneOrMore => if n < 1 then .error (.groupViolated g.gname) else .ok ()
  | .All => if n ≠ g.members.length then .error (.groupViolated g.gname) else .ok ()
  | .ZeroOrAll =>
    if n ≠ 0 ∧ n ≠ g.members.length then .error (.groupViolated g.gname) else .ok ()

/-- Group validation over a list of groups, first error wins. -/
def checkGroups (st : PState) : List GroupSpec → Except Err Unit
  | [] => .ok ()
  | g :: rest =>
    match checkGroup st g with
    | .ok _ => checkGroups st rest
    | .error e => .error e

/-- Stable insertion into a sorted list: the new element goes before the
first strictly greater element, so equivalent elements keep their
original relative order (the guarantee of std::stable_sort). -/
def insSorted (lt : α → α → Bool) (x : α) : List α → List α
  | [] => [x]
  | y :: ys => if lt x y then x :: y :: ys else y :: insSorted lt x ys

/-- Stable sort by repeated insertion. -/
def stableSortBy (lt : α → α → Bool) (xs : List α) : List α :=
  xs.foldl (fun acc x => insSorted lt x acc) []

/-- Adjacent deduplication (std::unique). -/
def dedupAdjacent : List Nat → List Nat
  | [] => []
  | [x] => [x]
  | x :: y :: rest =>
    if x = y then dedupAdjacent (y :: rest)
    else x :: dedupAdjacent (y :: rest)

/-- CmdLine::getUniqueOptions: iterate the alias map in key order,
stable-sort the owning options by name, and drop adjacent duplicates
(several aliases of one option are adjacent after the sort). -/
def getUniqueOptions (R : Registry) : List Nat :=
  dedupAdjacent
    (stableSortBy (fun a b => strLt (optSpec R a).name (optSpec R b).name)
      ((stableSortBy (fun a b => strLt a.1 b.1) R.amap).map Prod.snd))

/-- The groups map iterated in key order (std::map is ordered by
name). -/
def groupsSorted (R : Registry) : List GroupSpec :=
  stableSortBy (fun a b => strLt a.gname b.gname) R.groups

/-- CmdLine::check(): required-occurrence checks over the unique options
and then over the positional options, then the group checks. -/
def checkAll (R : Registry) (st : PState) : Except Err Unit :=
  match checkList R st (getUniqueOptions R) with
  | .error e => .error e
  | .ok _ =>
    match checkList R st R.positionals with
    | .error e => .error e
    | .ok _ => checkGroups st (groupsSorted R)

/-- CmdLine::parse(): the token loop followed by CmdLine::check(). -/
def parseArgs (R : Registry) (args : List (List Char)) : Except Err PState :=
  match runArgs R args with
  | .error e => .error e
  | .ok st =>
    match checkAll R st with
    | .error e => .error e
    | .ok _ => .ok st

/-- Modelled from the spec: the shell-word tokenizer
tokenizeCommandLineUnix lives in Support/CmdLineToArgv.h, which is not
part of the sources here; following the spec, the file system is
abstracted as a map from a path to the shell-tokenized contents of that
file, with none denoting a file that cannot be opened or read.
CmdLine::expandResponseFile then erases the reference token and inserts
the file tokens in its place. -/
def expandStep (fs : List Char → Option (List (List Char))) (args : List (List Char)) (i : Nat) :
    Except Err (List (List Char)) :=
  let path := (args.getD i []).drop 1
  match fs path with
  | none => .error (.ioError path)
  | some toks => .ok (args.take i ++ toks ++ args.drop (i + 1))

/-- std::string array access: args_ of CmdLine is a vector of
std::string, so the read args_[i][0] of the expansion scan goes through
std::string::operator[], which at a position equal to the size returns
the null character (defined behavior); an empty token therefore reads
as the null character, not as an out-of-range access. -/
def strCharAt (s : List Char) (i : Nat) : Char :=
  s.getD i (Char.ofNat 0)

/-- The scan loop of CmdLine::expandResponseFiles: a token whose first
character (read via std::string::operator[], so the null character for
an empty token) is not the at sign is skipped; a reference token is
expanded in place and the scan resumes at the same index, so nested
references expand recursively; after each expansion the counter is
decremented, and reaching zero raises TooManyResponseFiles.  The fuel
bounds the number of loop iterations; none means the fuel ran out
before the scan finished. -/
def expandLoopCap (fs : List Char → Option (List (List Char))) :
    Nat → List (List Char) → Nat → Nat → Option (Except Err (List (List Char)))
  | 0, _, _, _ => none
  | fuel + 1, args, i, left =>
    if i < args.length then
      if strCharAt (args.getD i []) 0 = '@' then
        match expandStep fs args i with
        | .error e => some (.error e)
        | .ok args2 =>
          if left - 1 = 0 then some (.error .tooManyResponseFiles)
          else expandLoopCap fs fuel args2 i (left - 1)
      else expandLoopCap fs fuel args (i + 1) left
    else some (.ok args)

/-- CmdLine::expandResponseFiles: the scan loop started with the counter
at 100. -/
def expandResponseFiles (fs : List Char → Option (List (List Char)))
    (args : List (List Char)) (fuel : Nat) : Option (Except Err (List (List Char))) :=
  expandLoopCap fs fuel args 0 100

/-- The same scan loop without the counter, instrumented to report how
many expansions were performed; used to state how many expansions an
argument vector needs. -/
def expandLoopCount (fs : List Char → Option (List (List Char))) :
    Nat → List (List Char) → Nat → Option (Except Err (List (List Char) × Nat))
  | 0, _, _ => none
  | fuel + 1, args, i =>
    if i < args.length then
      if strCharAt (args.getD i []) 0 = '@' then
        match expandStep fs args i with
        | .error e => some (.error e)
        | .ok args2 =>
          match expandLoopCount fs fuel args2 i with
          | none => none
          | some (.error e) => some (.error e)
          | some (.ok (res, k)) => some (.ok (res, k + 1))
      else expandLoopCount fs fuel args (i + 1)
    else some (.ok (args, 0))

/-! Helper definitions for stating properties of the piece loop. -/

/-- The longest prefix of a piece list that the value parser accepts:
the pieces that CmdLine::parse stores before the first rejected piece
stops it. -/
def acceptedPrefix (sp : OptSpec) (name : List Char) : List (List Char) → List (List Char)
  | [] => []
  | p :: ps => if sp.accepts name p then p :: acceptedPrefix sp name ps else []

/-- Whether a leading substring of the given length is a registered
alias of a prefix option (the winning condition of the handlePrefix
loop). -/
def prefixHitB (R : Registry) (curr : List Char) (n : Nat) : Bool :=
  match findOption R (curr.take n) with
  | some id => isPrefix (optSpec R id)
  | none => false

/-! Basic lemmas about the piece loop and the session heap. -/

theorem getOS_setOS (st : PState) (id : Nat) (os : OptState) (j : Nat) :
    getOS (setOS st id os) j = if j = id then os else getOS st j := rfl

theorem addPiecesRun_eq (sp : OptSpec) (name : List Char) :
    ∀ (ps : List (List Char)) (os : OptState),
      addPiecesRun sp name ps os =
        ({ count := os.count + (acceptedPrefix sp name ps).length,
           store := os.store ++ acceptedPrefix sp name ps },
         match ps.drop (acceptedPrefix sp name ps).length with
         | [] => none
         | bad :: _ => some (.invalidArgument name bad)) := by
  intro ps
  induction ps with
  | nil =>
    intro os
    simp [addPiecesRun, acceptedPrefix]
  | cons p ps ih =>
    intro os
    cases h : sp.accepts name p with
    | false =>
      simp [addPiecesRun, acceptedPrefix, h]
    | true =>
      simp only [addPiecesRun, acceptedPrefix, h, if_true, ih, List.length_cons,
        List.drop_succ_cons, Prod.mk.injEq, OptState.mk.injEq]
      exact ⟨⟨by omega, by simp⟩, trivial⟩

theorem acceptedPrefix_all (sp : OptSpec) (name : List Char) :
    ∀ ps, (∀ p ∈ ps, sp.accepts name p = true) → acceptedPrefix sp name ps = ps := by
  intro ps
  induction ps with
  | nil => intro _; rfl
  | cons p ps ih =>
    intro h
    simp [acceptedPrefix, h p (by simp), ih (fun q hq => h q (by simp [hq]))]

theorem acceptedPrefix_length_le (sp : OptSpec) (name : List Char) :
    ∀ ps, (acceptedPrefix sp name ps).length ≤ ps.length := by
  intro ps
  induction ps with
  | nil => simp [acceptedPrefix]
  | cons p ps ih =>
    cases h : sp.accepts name p with
    | false => simp [acceptedPrefix, h]
    | true =>
      simp only [acceptedPrefix, h, if_true, List.length_cons]
      omega

theorem acceptedPrefix_append (sp : OptSpec) (name : List Char) (bad : List Char)
    (rest : List (List Char)) :
    ∀ good, (∀ p ∈ good, sp.accepts name p = true) → sp.accepts name bad = false →
      acceptedPrefix sp name (good ++ bad :: rest) = good := by
  intro good
  induction good with
  | nil =>
    intro _ hbad
    simp [acceptedPrefix, hbad]
  | cons p ps ih =>
    intro hgood hbad
    simp [acceptedPrefix, hgood p (by simp), ih (fun q hq => hgood q (by simp [hq])) hbad]

theorem parsePieces_error_shape (sp : OptSpec) (name arg : List Char) (os : OptState) (e : Err) :
    (parsePieces sp name arg os).2 = some e →
    e = .alreadySpecified (displayName sp) ∨ ∃ n p, e = .invalidArgument n p := by
  unfold parsePieces
  split
  · rw [addPiecesRun_eq]
    intro h
    right
    simp only [] at h
    split at h
    · exact absurd h (by simp)
    · exact ⟨name, _, (Option.some.injEq _ _ ▸ h).symm⟩
  · intro h
    left
    simpa using h.symm

theorem cmdParse_ne_missingArgument (R : Registry) (id : Nat) (name arg : List Char)
    (st : PState) (d : List Char) :
    cmdParse R id name arg st ≠ .error (.missingArgument d) := by
  unfold cmdParse
  rcases hp : parsePieces (optSpec R id) name arg (getOS st id) with ⟨os, oe⟩
  cases oe with
  | none => simp
  | some e =>
    simp only [ne_eq, Except.error.injEq]
    intro hcontra
    have hshape := parsePieces_error_shape (optSpec R id) name arg (getOS st id) e (by rw [hp])
    subst hcontra
    rcases hshape with h | ⟨n, p, h⟩ <;> simp at h

/-! Concrete configurations used by the claim instances below. -/

/-- An Optional option with the CommaSeparated flag and an
always-accepting value parser. -/
def c1Spec : OptSpec := { name := [ 'x'], commaSeparated := true }

/-- Registry holding only `c1Spec`. -/
def c1Reg : Registry := regOrEmpty (mkRegistry [c1Spec])

/-- A MayPrefix option named x. -/
def c2Spec : OptSpec := { name := [ 'x'], formatting := .MayPrefix }

/-- Registry holding only `c2Spec`. -/
def c2Reg : Registry := regOrEmpty (mkRegistry [c2Spec])

/-- A CommaSeparated option with an always-accepting parser. -/
def c3Spec : OptSpec := { name := [ 'l'], commaSeparated := true }

/-- An option that requires an argument. -/
def c4Spec : OptSpec := { name := [ 'o'], numArgs := .ArgRequired }

/-- Registry holding only `c4Spec`. -/
def c4Reg : Registry := regOrEmpty (mkRegistry [c4Spec])

/-- A CommaSeparated option whose value parser rejects exactly the
piece b. -/
def c10Spec : OptSpec :=
  { name := [ 'l'], commaSeparated := true,
    accepts := fun _ p => if p = [ 'b'] then false else true }

/-- Claim C2 (amended): when a dashed token with no exact alias match is
split at its first equals sign and the name part resolves to an option,
the value delivered to value acquisition is the equals sign plus the
rest exactly when the option satisfies isPrefix, that is when its
formatting mode is Prefix or MayPrefix; for every other formatting mode
the equals sign is discarded. -/
theorem c2_equals_value (R : Registry) (curr : List Char) (st : PState) (i id : Nat)
    (h1 : findOption R curr = none)
    (h2 : findCh '=' curr = some i)
    (h3 : findOption R (curr.take i) = some id) :
    handleOption R curr st =
      (addOccurrenceArg R id (curr.take i)
        (curr.drop (if isPrefix (optSpec R id) then i else i + 1)) st).map some := by
  simp only [handleOption, h1, h2, h3]

/-- Claim C2, counterexample to the claim as stated: for a MayPrefix
option x, the token -x=a delivers the value =a (the equals sign is
retained), not a as the claim asserts for every mode other than pure
Prefix. -/
theorem c2_counterexample :
    (optSpec c2Reg 0).formatting = .MayPrefix ∧
    (parseArgs c2Reg [[ '-', 'x', '=', 'a']]).map (fun st => (getOS st 0).store) =
      .ok [[ '=', 'a']] :=
  ⟨by decide, by decide⟩

/-- Claim C2, witness: the amended theorem applied to the concrete
MayPrefix registry and the stripped token x=a. -/
theorem c2_equals_value_witness :
    handleOption c2Reg [ 'x', '=', 'a'] (initState [[ '-', 'x', '=', 'a']]) =
      (addOccurrenceArg c2Reg 0 [ 'x'] [ '=', 'a']
        (initState [[ '-', 'x', '=', 'a']])).map some :=
  c2_equals_value c2Reg [ 'x', '=', 'a'] (initState [[ '-', 'x', '=', 'a']]) 1 0
    (by decide) (by decide) (by decide)

/-- Claim C3: for a CommaSeparated option, an allowed occurrence splits
the delivered value on commas and handles the pieces strictly left to
right: in general the final state stores exactly the accepted prefix of
the piece list, in order, and count grows by exactly one per stored
piece (a piece rejected by the value parser does not increment count);
when every piece is accepted, all pieces are inserted in left-to-right
order with no error. -/
theorem c3_comma_pieces (sp : OptSpec) (name arg : List Char) (os : OptState)
    (hc : sp.commaSeparated = true)
    (ha : isOccurrenceAllowed sp os.count = true) :
    (parsePieces sp name arg os =
      ({ count := os.count + (acceptedPrefix sp name (splitOnChar ',' arg)).length,
         store := os.store ++ acceptedPrefix sp name (splitOnChar ',' arg) },
       match (splitOnChar ',' arg).drop (acceptedPrefix sp name (splitOnChar ',' arg)).length with
       | [] => none
       | bad :: _ => some (.invalidArgument name bad)))
    ∧ ((∀ p ∈ splitOnChar ',' arg, sp.accepts name p = true) →
        parsePieces sp name arg os =
          ({ count := os.count + (splitOnChar ',' arg).length,
             store := os.store ++ splitOnChar ',' arg }, none)) := by
  have h1 : parsePieces sp name arg os = addPiecesRun sp name (splitOnChar ',' arg) os := by
    simp [parsePieces, ha, hc]
  constructor
  · rw [h1, addPiecesRun_eq]
  · intro hall
    rw [h1, addPiecesRun_eq, acceptedPrefix_all sp name _ hall]
    simp

/-- Claim C3, witness: the theorem applied to the value a,b,c with an
always-accepting parser inserts the three pieces in order and raises
count from 0 to 3. -/
theorem c3_comma_pieces_witness :
    isOccurrenceAllowed c3Spec 0 = true ∧
    parsePieces c3Spec [ 'l'] [ 'a', ',', 'b', ',', 'c'] {} =
      ({ count := 3, store := [[ 'a'], [ 'b'], [ 'c']] }, none) :=
  ⟨by decide,
    (c3_comma_pieces c3Spec [ 'l'] [ 'a', ',', 'b', ',', 'c'] {} (by decide) (by decide)).2
      (by decide)⟩

/-- Claim C4: a non-positional option that requires an argument and was
matched without an inline value steals the next token of the argument
vector and advances the cursor past it, and it fails with
MissingArgument exactly when the option is strictly Prefix formatted or
no next token remains. -/
theorem c4_steal_next (R : Registry) (id : Nat) (name : List Char) (st : PState)
    (hnp : (optSpec R id).formatting ≠ .Positional)
    (hreq : (optSpec R id).numArgs = .ArgRequired) :
    (((optSpec R id).formatting = .Prefix ∨ st.args.length ≤ st.index + 1) →
      addOccurrenceNoArg R id name st = .error (.missingArgument (displayName (optSpec R id))))
    ∧ ((optSpec R id).formatting ≠ .Prefix → st.index + 1 < st.args.length →
      addOccurrenceNoArg R id name st =
        cmdParse R id name (st.args.getD (st.index + 1) []) { st with index := st.index + 1 })
    ∧ (∀ d, addOccurrenceNoArg R id name st = .error (.missingArgument d) →
        (optSpec R id).formatting = .Prefix ∨ st.args.length ≤ st.index + 1) := by
  refine ⟨?_, ?_, ?_⟩
  · intro hcond
    simp only [addOccurrenceNoArg]
    rw [if_pos ⟨hnp, hreq⟩, if_pos hcond]
  · intro hpre hlen
    simp only [addOccurrenceNoArg]
    rw [if_pos ⟨hnp, hreq⟩, if_neg (not_or.mpr ⟨hpre, by omega⟩)]
  · intro d h
    by_contra hcon
    simp only [addOccurrenceNoArg] at h
    rw [if_pos ⟨hnp, hreq⟩, if_neg hcon] at h
    exact cmdParse_ne_missingArgument R id name _ _ d h

/-- Claim C4, witness: for the option o requiring an argument, the
token -o at the end of the vector fails with MissingArgument, and with a
following token f the engine consumes f as the value and advances the
cursor. -/
theorem c4_steal_next_witness :
    (addOccurrenceNoArg c4Reg 0 [ 'o'] (initState [[ '-', 'o']]) =
      .error (.missingArgument [ 'o']))
    ∧ (addOccurrenceNoArg c4Reg 0 [ 'o'] (initState [[ '-', 'o'], [ 'f']]) =
      cmdParse c4Reg 0 [ 'o'] [ 'f'] { initState [[ '-', 'o'], [ 'f']] with index := 1 }) :=
  ⟨(c4_steal_next c4Reg 0 [ 'o'] (initState [[ '-', 'o']]) (by decide) (by decide)).1
      (Or.inr (by decide)),
    (c4_steal_next c4Reg 0 [ 'o'] (initState [[ '-', 'o'], [ 'f']]) (by decide) (by decide)).2.1
      (by decide) (by decide)⟩

/-- Claim C9: evaluating the dispatcher on an argument vector holding
one empty token: handleArg evaluates arg[0] before deciding whether the
token is positional, and on the empty token this access is out of range
(the assertion Index < size() of StringRef::operator[] is violated), so
the session aborts instead of classifying the token as positional. -/
theorem c9_empty_token_out_of_range :
    (parseArgs ({} : Registry) [[]]).map (fun _ => ()) = .error .outOfRange := by
  decide

/-- Claim C10: when the value parser rejects a piece of a
comma-separated value, the pieces stored before it from the same token
are kept and count reflects exactly the successfully stored pieces;
nothing is rolled back, and the error names the rejected piece. -/
theorem c10_no_rollback (sp : OptSpec) (name arg : List Char) (os : OptState)
    (good : List (List Char)) (bad : List Char) (rest : List (List Char))
    (hc : sp.commaSeparated = true)
    (ha : isOccurrenceAllowed sp os.count = true)
    (hsplit : splitOnChar ',' arg = good ++ bad :: rest)
    (hgood : ∀ p ∈ good, sp.accepts name p = true)
    (hbad : sp.accepts name bad = false) :
    parsePieces sp name arg os =
      ({ count := os.count + good.length, store := os.store ++ good },
       some (.invalidArgument name bad)) := by
  have h1 : parsePieces sp name arg os = addPiecesRun sp name (splitOnChar ',' arg) os := by
    simp [parsePieces, ha, hc]
  rw [h1, hsplit, addPiecesRun_eq, acceptedPrefix_append sp name bad rest good hgood hbad]
  simp

/-- Claim C10, witness: the value a,b,c with a parser rejecting b keeps
the stored piece a, leaves count at 1, and reports InvalidArgument
for b. -/
theorem c10_no_rollback_witness :
    parsePieces c10Spec [ 'l'] [ 'a', ',', 'b', ',', 'c'] {} =
      ({ count := 1, store := [[ 'a']] }, some (.invalidArgument [ 'l'] [ 'b'])) :=
  c10_no_rollback c10Spec [ 'l'] [ 'a', ',', 'b', ',', 'c'] {} [[ 'a']] [ 'b'] [[ 'c']]
    (by decide) (by decide) (by decide) (by decide) (by decide)

/-! Occurrence-count invariant: machinery for claim C1. -/

/-- An option whose count may legitimately exceed one: unbounded
occurrence policy, or the CommaSeparated flag (several pieces of one
token are stored after a single occurrence check). -/
def MultiCountOK (sp : OptSpec) : Prop :=
  sp.numOccurrences = .ZeroOrMore ∨ sp.numOccurrences = .OneOrMore ∨ sp.commaSeparated = true

/-- Session invariant: every option outside `MultiCountOK` has count at
most one. -/
def CountsBounded (R : Registry) (st : PState) : Prop :=
  ∀ id, ¬ MultiCountOK (optSpec R id) → (getOS st id).count ≤ 1

theorem parsePieces_count_le (sp : OptSpec) (name arg : List Char) (os0 os : OptState)
    (hmc : ¬ MultiCountOK sp)
    (h : parsePieces sp name arg os0 = (os, none)) : os.count ≤ 1 := by
  have hcomma : sp.commaSeparated = false := by
    cases hcm : sp.commaSeparated
    · rfl
    · exact absurd (Or.inr (Or.inr hcm)) hmc
  unfold parsePieces at h
  split at h
  · rw [hcomma] at h
    simp only [if_false, Bool.false_eq_true] at h
    rw [addPiecesRun_eq] at h
    have hcount : os.count = os0.count + (acceptedPrefix sp name [arg]).length := by
      have hfst := congrArg (fun q => q.1.count) h
      simpa using hfst.symm
    have hzero : os0.count = 0 := by
      rename_i hal
      cases hocc : sp.numOccurrences
      · unfold isOccurrenceAllowed at hal
        rw [hocc] at hal
        simpa using hal
      · exact absurd (Or.inl hocc) hmc
      · unfold isOccurrenceAllowed at hal
        rw [hocc] at hal
        simpa using hal
      · exact absurd (Or.inr (Or.inl hocc)) hmc
    have hA := acceptedPrefix_length_le sp name [arg]
    simp only [List.length_singleton] at hA
    omega
  · exact absurd (congrArg Prod.snd h) (by simp)

theorem cmdParse_bounded (R : Registry) (id : Nat) (name arg : List Char) (st st' : PState)
    (h : cmdParse R id name arg st = .ok st') (hB : CountsBounded R st) :
    CountsBounded R st' := by
  unfold cmdParse at h
  rcases hp : parsePieces (optSpec R id) name arg (getOS st id) with ⟨os, oe⟩
  rw [hp] at h
  cases oe with
  | some e => exact absurd h (by simp)
  | none =>
    have hst : st' = setOS st id os := by
      simpa using h.symm
    subst hst
    intro j hj
    rw [getOS_setOS]
    split
    · rename_i hji
      subst hji
      exact parsePieces_count_le (optSpec R j) name arg (getOS st j) os hj hp
    · exact hB j hj

theorem addOccurrenceNoArg_bounded (R : Registry) (id : Nat) (name : List Char) (st st' : PState)
    (h : addOccurrenceNoArg R id name st = .ok st') (hB : CountsBounded R st) :
    CountsBounded R st' := by
  unfold addOccurrenceNoArg at h
  split at h
  · split at h
    · exact absurd h (by simp)
    · exact cmdParse_bounded R id name _ _ st' h hB
  · exact cmdParse_bounded R id name _ st st' h hB

theorem addOccurrenceArg_bounded (R : Registry) (id : Nat) (name arg : List Char) (st st' : PState)
    (h : addOccurrenceArg R id name arg st = .ok st') (hB : CountsBounded R st) :
    CountsBounded R st' := by
  unfold addOccurrenceArg at h
  split at h
  · exact absurd h (by simp)
  · exact cmdParse_bounded R id name arg st st' h hB

theorem except_map_some_ok {α : Type} (x : Except Err α) (v : α)
    (h : x.map some = .ok (some v)) : x = .ok v := by
  cases x with
  | error e => simp [Except.map] at h
  | ok a =>
    simp [Except.map] at h
    rw [h]

theorem handleOption_bounded (R : Registry) (curr : List Char) (st st' : PState)
    (h : handleOption R curr st = .ok (some st')) (hB : CountsBounded R st) :
    CountsBounded R st' := by
  unfold handleOption at h
  split at h
  · exact addOccurrenceNoArg_bounded R _ curr st st' (except_map_some_ok _ _ h) hB
  · split at h
    · exact absurd h (by simp)
    · split at h
      · exact addOccurrenceArg_bounded R _ _ _ st st' (except_map_some_ok _ _ h) hB
      · exact absurd h (by simp)

theorem handlePrefixFrom_bounded (R : Registry) (curr : List Char) (st : PState) :
    ∀ (n : Nat) (st' : PState), handlePrefixFrom R curr st n = .ok (some st') →
      CountsBounded R st → CountsBounded R st' := by
  intro n
  induction n with
  | zero =>
    intro st' h
    simp [handlePrefixFrom] at h
  | succ m ih =>
    intro st' h hB
    unfold handlePrefixFrom at h
    split at h
    · split at h
      · exact addOccurrenceArg_bounded R _ _ _ st st' (except_map_some_ok _ _ h) hB
      · exact ih st' h hB
    · exact ih st' h hB

theorem groupLoop_bounded (R : Registry) :
    ∀ (g : List (Char × Nat)) (st st' : PState), groupLoop R g st = .ok st' →
      CountsBounded R st → CountsBounded R st' := by
  intro g
  induction g with
  | nil =>
    intro st st' h hB
    cases h
    exact hB
  | cons p rest ih =>
    intro st st' h hB
    unfold groupLoop at h
    split at h
    · rename_i st1 heq
      exact ih st1 st' h (addOccurrenceNoArg_bounded R p.2 [p.1] st st1 heq hB)
    · exact absurd h (by simp)

theorem handleGroup_bounded (R : Registry) (curr : List Char) (st st' : PState)
    (h : handleGroup R curr st = .ok (some st')) (hB : CountsBounded R st) :
    CountsBounded R st' := by
  unfold handleGroup at h
  split at h
  · exact absurd h (by simp)
  · split at h
    · exact absurd h (by simp)
    · exact groupLoop_bounded R _ st st' (except_map_some_ok _ _ h) hB

theorem positionalFrom_bounded (R : Registry) (curr : List Char) (st : PState) :
    ∀ (rest : List Nat) (pos : Nat) (st' : PState),
      positionalFrom R curr st rest pos = .ok st' →
      CountsBounded R st → CountsBounded R st' := by
  intro rest
  induction rest with
  | nil =>
    intro pos st' h
    simp [positionalFrom] at h
  | cons id rest ih =>
    intro pos st' h hB
    unfold positionalFrom at h
    split at h
    · exact addOccurrenceArg_bounded R id curr curr _ st' h hB
    · exact ih (pos + 1) st' h hB

theorem handlePrefix_bounded (R : Registry) (curr : List Char) (st st' : PState)
    (h : handlePrefix R curr st = .ok (some st')) (hB : CountsBounded R st) :
    CountsBounded R st' := by
  unfold handlePrefix at h
  exact handlePrefixFrom_bounded R curr st _ st' h hB

theorem handlePositional_bounded (R : Registry) (curr : List Char) (st st' : PState)
    (h : handlePositional R curr st = .ok st') (hB : CountsBounded R st) :
    CountsBounded R st' := by
  unfold handlePositional at h
  exact positionalFrom_bounded R curr st _ _ st' h hB

theorem dispatchnamed_bounded (R : Registry) (arg : List Char) (c1 : Char) (nm2 : List Char)
    (st st' : PState) (h : dispatchnamed R arg c1 nm2 st = .ok st') (hB : CountsBounded R st) :
    CountsBounded R st' := by
  unfold dispatchnamed at h
  split at h
  · exact absurd h (by simp)
  · rename_i st1 heq
    cases h
    exact handleOption_bounded R nm2 st st' heq hB
  · split at h
    · exact absurd h (by simp)
    · rename_i st1 heq
      cases h
      exact handlePrefix_bounded R nm2 st st' heq hB
    · split at h
      · split at h
        · exact absurd h (by simp)
        · rename_i st1 heq
          cases h
          exact handleGroup_bounded R nm2 st st' heq hB
        · exact absurd h (by simp)
      · exact absurd h (by simp)

theorem handleArg_bounded (R : Registry) (st st' : PState)
    (h : handleArg R st = .ok st') (hB : CountsBounded R st) : CountsBounded R st' := by
  unfold handleArg at h
  split at h
  · cases h
    exact hB
  · split at h
    · exact absurd h (by simp)
    · split at h
      · split at h
        · exact absurd h (by simp)
        · rename_i st1 heq
          have h1 : CountsBounded R st1 := handlePositional_bounded R _ st st1 heq hB
          split at h <;> cases h <;> exact h1
      · split at h
        · exact absurd h (by simp)
        · exact dispatchnamed_bounded R _ _ _ st st' h hB

theorem runLoop_bounded (R : Registry) :
    ∀ (fuel : Nat) (st st' : PState), runLoop R fuel st = .ok st' →
      CountsBounded R st → CountsBounded R st' := by
  intro fuel
  induction fuel with
  | zero =>
    intro st st' h hB
    cases h
    exact hB
  | succ m ih =>
    intro st st' h hB
    unfold runLoop at h
    split at h
    · split at h
      · exact absurd h (by simp)
      · rename_i st1 heq
        exact ih _ st' h (handleArg_bounded R st st1 heq hB)
    · cases h
      exact hB

theorem initState_bounded (R : Registry) (args : List (List Char)) :
    CountsBounded R (initState args) := by
  intro j _
  simp [getOS, initState]

theorem parseArgs_ok_runArgs (R : Registry) (args : List (List Char)) (st : PState)
    (h : parseArgs R args = .ok st) : runArgs R args = .ok st := by
  unfold parseArgs at h
  split at h
  · exact absurd h (by simp)
  · rename_i st0 heq
    split at h
    · exact absurd h (by simp)
    · cases h
      exact heq

/-- Claim C1 (amended): when a parse session completes without error, an
option whose count exceeds one has occurrence policy ZeroOrMore or
OneOrMore, or carries the CommaSeparated flag (for a CommaSeparated
option one token may supply several pieces, each incrementing count
after a single occurrence check, so Optional or Required options may end
a successful parse with count above one). -/
theorem c1_count_bound (R : Registry) (args : List (List Char)) (st : PState) (id : Nat)
    (h : parseArgs R args = .ok st) (hc : 1 < (getOS st id).count) :
    (optSpec R id).numOccurrences = .ZeroOrMore ∨
    (optSpec R id).numOccurrences = .OneOrMore ∨
    (optSpec R id).commaSeparated = true := by
  by_contra hcon
  have hrun : runArgs R args = .ok st := parseArgs_ok_runArgs R args st h
  have hB : CountsBounded R st := by
    unfold runArgs at hrun
    exact runLoop_bounded R _ _ st hrun (initState_bounded R args)
  have := hB id hcon
  omega

/-- Claim C1, counterexample to the claim as stated: the Optional,
CommaSeparated option x, given the single token -x=a,b, ends a parse
session that completes without error with count 2. -/
theorem c1_counterexample :
    (optSpec c1Reg 0).numOccurrences = .Optional ∧
    (optSpec c1Reg 0).commaSeparated = true ∧
    (parseArgs c1Reg [[ '-', 'x', '=', 'a', ',', 'b']]).map (fun st => (getOS st 0).count) =
      .ok 2 :=
  ⟨by decide, by decide, by decide⟩

/-- A ZeroOrMore option named z, for the witness of claim C1. -/
def c1wSpec : OptSpec := { name := [ 'z'], numOccurrences := .ZeroOrMore }

/-- Registry holding only `c1wSpec`. -/
def c1wReg : Registry := regOrEmpty (mkRegistry [c1wSpec])

/-- The argument vector naming z twice. -/
def c1wArgs : List (List Char) := [[ '-', 'z'], [ '-', 'z']]

/-- The final state of parsing `c1wArgs` against `c1wReg`. -/
def c1wState : PState :=
  match parseArgs c1wReg c1wArgs with
  | .ok st => st
  | .error _ => initState c1wArgs

/-- Claim C1, witness: a successful session in which z was counted
twice, so the amended theorem applies and yields its disjunction. -/
theorem c1_count_bound_witness :
    parseArgs c1wReg c1wArgs = .ok c1wState ∧ 1 < (getOS c1wState 0).count ∧
    ((optSpec c1wReg 0).numOccurrences = .ZeroOrMore ∨
     (optSpec c1wReg 0).numOccurrences = .OneOrMore ∨
     (optSpec c1wReg 0).commaSeparated = true) :=
  ⟨rfl, by decide, c1_count_bound c1wReg c1wArgs c1wState 0 rfl (by decide)⟩

/-! Claims C5 and C6: prefix matching and short-option grouping. -/

/-- A Prefix option with the single-letter alias O. -/
def c5O : OptSpec := { name := [ 'O'], formatting := .Prefix }

/-- A Prefix option with the two-letter alias Op. -/
def c5Op : OptSpec := { name := [ 'O', 'p'], formatting := .Prefix }

/-- Registry with both Prefix aliases O and Op. -/
def c5Reg : Registry := regOrEmpty (mkRegistry [c5O, c5Op])

/-- A Grouping option a without a required argument. -/
def c6a : OptSpec := { name := [ 'a'], formatting := .Grouping }

/-- A Grouping option b without a required argument. -/
def c6b : OptSpec := { name := [ 'b'], formatting := .Grouping }

/-- A Grouping option c requiring an argument. -/
def c6c : OptSpec := { name := [ 'c'], formatting := .Grouping, numArgs := .ArgRequired }

/-- Registry with the Grouping options a and b. -/
def c6Reg : Registry := regOrEmpty (mkRegistry [c6a, c6b])

/-- Registry with the Grouping options a and c. -/
def c6Reg2 : Registry := regOrEmpty (mkRegistry [c6a, c6c])

theorem handlePrefixFrom_none (R : Registry) (curr : List Char) (st : PState) :
    ∀ m, (∀ n, 1 ≤ n → n ≤ m → prefixHitB R curr n = false) →
      handlePrefixFrom R curr st m = .ok none := by
  intro m
  induction m with
  | zero => intro _; rfl
  | succ k ih =>
    intro hno
    have hk := hno (k + 1) (by omega) (le_refl _)
    unfold prefixHitB at hk
    unfold handlePrefixFrom
    split
    · rename_i id heq
      rw [heq] at hk
      simp only [] at hk
      simp only [hk, Bool.false_eq_true, if_false]
      exact ih (fun n hn1 hn2 => hno n hn1 (by omega))
    · exact ih (fun n hn1 hn2 => hno n hn1 (by omega))

theorem handlePrefixFrom_hit (R : Registry) (curr : List Char) (st : PState) (n id : Nat)
    (h1 : 1 ≤ n) (hfind : findOption R (curr.take n) = some id)
    (hpre : isPrefix (optSpec R id) = true) :
    ∀ m, n ≤ m → (∀ k, n < k → k ≤ m → prefixHitB R curr k = false) →
      handlePrefixFrom R curr st m =
        (addOccurrenceArg R id (curr.take n) (curr.drop n) st).map some := by
  intro m
  induction m with
  | zero => intro hnm _; exact absurd hnm (by omega)
  | succ k ih =>
    intro hnm hno
    by_cases hcase : n = k + 1
    · subst hcase
      unfold handlePrefixFrom
      simp only [hfind, hpre, if_true]
    · have hlt : n ≤ k := by omega
      have hk := hno (k + 1) (by omega) (by omega)
      unfold prefixHitB at hk
      unfold handlePrefixFrom
      split
      · rename_i id2 heq
        rw [heq] at hk
        simp only [] at hk
        simp only [hk, Bool.false_eq_true, if_false]
        exact ih hlt (fun j hj1 hj2 => hno j hj1 (by omega))
      · exact ih hlt (fun j hj1 hj2 => hno j hj1 (by omega))

/-- Claim C5: prefix matching tries leading-substring lengths from
min(maxPrefixLength, token length) down to 1; the first (hence longest)
length whose leading substring is a registered alias of a Prefix or
MayPrefix option wins, that option receiving the remaining tail of the
token as inline value; a token with no hit at any length is left
unhandled; concretely, with Prefix aliases O and Op both registered, the
token -Op3 resolves to Op with value 3 and leaves O untouched. -/
theorem c5_longest_alias_wins (R : Registry) (curr : List Char) (st : PState) :
    ((∀ n, 1 ≤ n → n ≤ min R.maxPrefixLength curr.length → prefixHitB R curr n = false) →
      handlePrefix R curr st = .ok none)
    ∧ (∀ n id, 1 ≤ n → n ≤ min R.maxPrefixLength curr.length →
        findOption R (curr.take n) = some id → isPrefix (optSpec R id) = true →
        (∀ k, n < k → k ≤ min R.maxPrefixLength curr.length → prefixHitB R curr k = false) →
        handlePrefix R curr st =
          (addOccurrenceArg R id (curr.take n) (curr.drop n) st).map some)
    ∧ ((parseArgs c5Reg [[ '-', 'O', 'p', '3']]).map
        (fun s => ((getOS s 0).count, (getOS s 1).store)) = .ok (0, [[ '3']])) := by
  refine ⟨?_, ?_, by decide⟩
  · intro hno
    exact handlePrefixFrom_none R curr st _ hno
  · intro n id h1 h2 hfind hpre hno
    exact handlePrefixFrom_hit R curr st n id h1 hfind hpre _ h2 hno

/-- Claim C5, witness: the general characterization applied to the
registry with aliases O and Op and the stripped token Op3: the longest
alias Op wins with inline value 3. -/
theorem c5_longest_alias_wins_witness :
    handlePrefix c5Reg [ 'O', 'p', '3'] (initState [[ '-', 'O', 'p', '3']]) =
      (addOccurrenceArg c5Reg 1 [ 'O', 'p'] [ '3']
        (initState [[ '-', 'O', 'p', '3']])).map some :=
  (c5_longest_alias_wins c5Reg [ 'O', 'p', '3'] (initState [[ '-', 'O', 'p', '3']])).2.1 2 1
    (by decide) (by decide) (by decide) (by decide)
    (by intro k hk1 hk2; exact absurd (hk1.trans_le hk2) (by decide))

/-- Claim C6: a short-form cluster all of whose characters resolve to
Grouping options fails with MissingArgumentInGroup naming the first
option other than the last that requires an argument, together with the
offending cluster; otherwise every matched option receives one
occurrence left to right, and an option that does not require an
argument is given the empty value, while the last option follows normal
value acquisition and may steal the next token; over the argument-free
Grouping options a and b the input -ab increments both counts by one
with empty values. -/
theorem c6_grouping (R : Registry) (curr : List Char) (st : PState) :
    (∀ g id, collectGroup R curr = some g → firstRequiredViolation R g.dropLast = some id →
      handleGroup R curr st = .error (.missingArgumentInGroup (displayName (optSpec R id)) curr))
    ∧ (∀ g, collectGroup R curr = some g → firstRequiredViolation R g.dropLast = none →
      handleGroup R curr st = (groupLoop R g st).map some)
    ∧ (∀ id name, (optSpec R id).numArgs ≠ .ArgRequired →
      addOccurrenceNoArg R id name st = cmdParse R id name [] st)
    ∧ ((parseArgs c6Reg [[ '-', 'a', 'b']]).map
        (fun s => ((getOS s 0).count, (getOS s 0).store, (getOS s 1).count, (getOS s 1).store)) =
        .ok (1, [[]], 1, [[]])) := by
  refine ⟨?_, ?_, ?_, by decide⟩
  · intro g id hg hv
    simp only [handleGroup, hg, hv]
  · intro g hg hv
    simp only [handleGroup, hg, hv]
  · intro id name hreq
    simp only [addOccurrenceNoArg]
    rw [if_neg (fun hcontra => hreq hcontra.2)]

/-- Claim C6, witness: in the cluster ca over Grouping options where c
requires an argument and is not last, handleGroup fails with
MissingArgumentInGroup naming c and the cluster. -/
theorem c6_grouping_witness :
    handleGroup c6Reg2 [ 'c', 'a'] (initState [[ '-', 'c', 'a']]) =
      .error (.missingArgumentInGroup [ 'c'] [ 'c', 'a']) :=
  (c6_grouping c6Reg2 [ 'c', 'a'] (initState [[ '-', 'c', 'a']])).1
    [( 'c', 1), ( 'a', 0)] 1 (by decide) (by decide)

/-! Claims C7 and C8: response-file expansion and check order. -/

set_option maxRecDepth 8000

/-- A file f whose tokenized contents re-reference f itself. -/
def fsSelf : List Char → Option (List (List Char)) :=
  fun p => if p = [ 'f'] then some [[ '@', 'f']] else none

/-- A readable file e with empty tokenized contents; every other path is
unreadable. -/
def fsE : List Char → Option (List (List Char)) :=
  fun p => if p = [ 'e'] then some [] else none

theorem expandCount_cap (fs : List Char → Option (List (List Char))) :
    ∀ (fuel : Nat) (args : List (List Char)) (i left : Nat) (res : List (List Char)) (k : Nat),
      expandLoopCount fs fuel args i = some (.ok (res, k)) → k < left →
      expandLoopCap fs fuel args i left = some (.ok res) := by
  intro fuel
  induction fuel with
  | zero =>
    intro args i left res k h _
    simp [expandLoopCount] at h
  | succ m ih =>
    intro args i left res k h hk
    unfold expandLoopCount at h
    unfold expandLoopCap
    by_cases hi : i < args.length
    · rw [if_pos hi] at h ⊢
      by_cases hat : strCharAt (args.getD i []) 0 = '@'
      · rw [if_pos hat] at h ⊢
        cases hex : expandStep fs args i with
        | error e =>
          rw [hex] at h
          simp at h
        | ok args2 =>
          rw [hex] at h
          simp only [] at h
          cases hrec : expandLoopCount fs m args2 i with
          | none =>
            rw [hrec] at h
            simp at h
          | some r =>
            cases r with
            | error e =>
              rw [hrec] at h
              simp at h
            | ok p =>
              rcases p with ⟨res0, k0⟩
              rw [hrec] at h
              simp only [Option.some.injEq, Except.ok.injEq, Prod.mk.injEq] at h
              obtain ⟨hres, hk0⟩ := h
              simp only []
              rw [if_neg (by omega)]
              exact hres ▸ ih args2 i (left - 1) res0 k0 hrec (by omega)
      · rw [if_neg hat] at h ⊢
        exact ih args (i + 1) left res k h hk
    · rw [if_neg hi] at h ⊢
      simp only [Option.some.injEq, Except.ok.injEq, Prod.mk.injEq] at h
      rw [h.1]

/-- Claim C7 (amended): a reference token is replaced in place by the
tokens of the referenced file and re-scanning continues from the
insertion point; the counter starting at 100 guards cyclic inclusion, so
a self-referencing file fails with TooManyResponseFiles instead of
looping; an argument vector needing at most 99 expansions of readable
acyclic files is expanded successfully, but one needing 100 expansions
fails with TooManyResponseFiles even when acyclic, because the counter
fires after the 100th expansion. -/
theorem c7_expansion :
    (∀ (fs : List Char → Option (List (List Char))) (fuel : Nat)
       (args res : List (List Char)) (k : Nat),
      expandLoopCount fs fuel args 0 = some (.ok (res, k)) → k ≤ 99 →
      expandResponseFiles fs args fuel = some (.ok res))
    ∧ expandResponseFiles fsSelf [[ '@', 'f']] 200 = some (.error .tooManyResponseFiles) := by
  refine ⟨?_, by decide⟩
  intro fs fuel args res k h hk
  unfold expandResponseFiles
  exact expandCount_cap fs fuel args 0 100 res k h (by omega)

/-- Claim C7, counterexample to the claim as stated: one hundred tokens
referencing the readable, acyclic, empty file e need exactly 100
expansions; the instrumented scan performs them, yet
expandResponseFiles fails with TooManyResponseFiles instead of
succeeding. -/
theorem c7_counterexample :
    expandLoopCount fsE 150 (List.replicate 100 [ '@', 'e']) 0 = some (.ok ([], 100))
    ∧ expandResponseFiles fsE (List.replicate 100 [ '@', 'e']) 150 =
        some (.error .tooManyResponseFiles) :=
  ⟨by decide, by decide⟩

/-- Claim C7, witness: a vector holding an empty token (skipped by the
scan, since std::string::operator[] reads it as the null character)
followed by ninety-nine references to the empty file e needs 99
expansions and succeeds through the amended theorem, keeping the empty
token. -/
theorem c7_expansion_witness :
    expandLoopCount fsE 150 ([] :: List.replicate 99 [ '@', 'e']) 0 = some (.ok ([[]], 99))
    ∧ expandResponseFiles fsE ([] :: List.replicate 99 [ '@', 'e']) 150 = some (.ok [[]]) :=
  ⟨by decide,
    c7_expansion.1 fsE 150 ([] :: List.replicate 99 [ '@', 'e']) [[]] 99 (by decide) (by decide)⟩

/-- A Required option r, never supplied. -/
def c8r : OptSpec := { name := [ 'r'], numOccurrences := .Required }

/-- An Optional option a, never supplied. -/
def c8a : OptSpec := { name := [ 'a'] }

/-- A group g with constraint One over the option a (id 1). -/
def c8G : GroupSpec := { gname := [ 'g'], gtype := .One, members := [1] }

/-- Registry with options r and a and the group g. -/
def c8Reg : Registry := regOrEmpty (addGroup (regOrEmpty (mkRegistry [c8r, c8a])) c8G)

/-- Claim C8 (amended): a parse session runs dispatch over all tokens
and then CmdLine::check, which performs the required-occurrence checks
first — over uniqueOptions() and then over the positional options — and
group validation last; a MissingRequiredOption error is therefore raised
before group validation, not after it. -/
theorem c8_check_order (R : Registry) (st : PState) :
    (∀ e, checkList R st (getUniqueOptions R) = .error e → checkAll R st = .error e)
    ∧ (checkList R st (getUniqueOptions R) = .ok () → checkList R st R.positionals = .ok () →
        checkAll R st = checkGroups st (groupsSorted R))
    ∧ (∀ (args : List (List Char)) (stF : PState), runArgs R args = .ok stF →
        parseArgs R args =
          match checkAll R stF with
          | .ok _ => .ok stF
          | .error e => .error e) := by
  refine ⟨?_, ?_, ?_⟩
  · intro e he
    unfold checkAll
    rw [he]
  · intro h1 h2
    unfold checkAll
    rw [h1, h2]
  · intro args stF hrun
    unfold parseArgs
    rw [hrun]
    simp only []
    cases checkAll R stF <;> rfl

/-- Claim C8, counterexample to the claim as stated: in one session the
required option r is missing and the group g is violated at the
post-dispatch state; the session reports MissingRequiredOption r, so the
required-occurrence check ran before group validation, not after it. -/
theorem c8_counterexample :
    runArgs c8Reg [] = .ok (initState [])
    ∧ checkGroups (initState []) (groupsSorted c8Reg) = .error (.groupViolated [ 'g'])
    ∧ (parseArgs c8Reg []).map (fun _ => ()) = .error (.missingRequired [ 'r']) :=
  ⟨rfl, by decide, by decide⟩

/-- Claim C8, witness: with the required option r unsatisfied, the
unique-options check fails and checkAll reports that same error. -/
theorem c8_check_order_witness :
    checkList c8Reg (initState []) (getUniqueOptions c8Reg) = .error (.missingRequired [ 'r'])
    ∧ checkAll c8Reg (initState []) = .error (.missingRequired [ 'r']) :=
  ⟨by decide,
    (c8_check_order c8Reg (initState [])).1 (.missingRequired [ 'r']) (by decide)⟩

end CmdLineModel
